import Mathlib

/-! # Hoi-Ola system monitor: a shallow embedding of `main.go`

The probes of `main.go` are embedded as pure functions of what they read from
the host:

* a sensor pseudo-file is an `Option String`: `none` when `os.Open` fails,
  otherwise the text of the file (a read error behaves like an empty file,
  `scanner.Scan()` is false in both cases);
* the output of an external command is an `Option String`: `none` when
  `cmd.Output()` reports an error;
* a counter query `net.IOCounters(true)` is an `Option (List IOCountersStat)`;
* the measured elapsed time is a rational number of seconds.

Go strings are modelled by their list of characters.  A `float64` is modelled by
the rational number it denotes (rounding of `+` and `/` is abstracted; the three
non-finite values, which only `strconv.ParseFloat` can produce here, are kept as
separate constructors of `F64`).  `uint64` counters are natural numbers below
`2 ^ 64` and their subtraction wraps modulo `2 ^ 64`.

`strconv.ParseFloat` is a parameter `pf` of the two temperature probes, so that
every statement about them holds for any float parser; `parseDecimal` is an
instance of `pf` for the concrete runs.  The other library routines used by the
program (`strings.TrimSpace`, `strings.Fields`, `strings.Split`,
`strings.Contains`, `strings.ReplaceAll`, `strconv.Atoi`, the first token of a
`bufio.Scanner`, `fmt.Sprintf "%.1f"`) are modelled below.  The sensor pseudo-files
are sysfs attributes of at most one page, so the 64 KiB token limit of
`bufio.Scanner` is never reached and is not modelled.

The definitions come first: the library routines, the four functions of
`main.go` that the statements are about (`readTemperatureFromFile`,
`getCPUTemperature`, `getGPUTemperature`, `getNetworkSpeed` with `formatSpeed`),
then the closed forms and the readings of C3 and C6 (`claimed...`) that the
functions are compared with.  The theorems follow, grouped by statement.
-/

namespace HoiOla

/-! ## Text routines of the Go standard library -/

/-- Go `unicode.IsSpace`: the Unicode White_Space property. -/
def isSpace (c : Char) : Bool :=
  let n := c.toNat
  (9 ≤ n && n ≤ 13) || n == 0x20 || n == 0x85 || n == 0xA0 || n == 0x1680 ||
    (0x2000 ≤ n && n ≤ 0x200A) || n == 0x2028 || n == 0x2029 || n == 0x202F ||
    n == 0x205F || n == 0x3000

/-- Go `strings.TrimSpace`: leading and trailing white space removed. -/
def trimSpace (s : List Char) : List Char :=
  ((s.dropWhile isSpace).reverse.dropWhile isSpace).reverse

/-- Worker of `fields`: `cur` is the token being read, in reverse. -/
def fieldsAux : List Char → List Char → List (List Char)
  | [], cur => if cur.isEmpty then [] else [cur.reverse]
  | c :: cs, cur =>
    if isSpace c then
      (if cur.isEmpty then fieldsAux cs [] else cur.reverse :: fieldsAux cs [])
    else fieldsAux cs (c :: cur)

/-- Go `strings.Fields`: the maximal runs of non-space characters. -/
def fields (s : List Char) : List (List Char) := fieldsAux s []

/-- Go `strings.Split(s, "\n")`: the pieces between line feeds (always at least one
piece, pieces may be empty). -/
def splitLines : List Char → List (List Char)
  | [] => [[]]
  | c :: cs =>
    if c = '\n' then [] :: splitLines cs
    else
      match splitLines cs with
      | [] => [[c]]
      | l :: ls => (c :: l) :: ls

/-- Go `strings.Contains(s, sub)`. -/
def contains : List Char → List Char → Bool
  | [], sub => sub.isEmpty
  | c :: cs, sub => sub.isPrefixOf (c :: cs) || contains cs sub

/-- Worker of `removeAll`: `skip` characters of a match are still to be dropped. -/
def removeAllAux (old : List Char) : Nat → List Char → List Char
  | _, [] => []
  | skip + 1, _ :: cs => removeAllAux old skip cs
  | 0, c :: cs =>
    if old.isPrefixOf (c :: cs) then removeAllAux old (old.length - 1) cs
    else c :: removeAllAux old 0 cs

/-- Go `strings.ReplaceAll(s, old, "")`: every non-overlapping occurrence of `old`,
found from left to right, is removed (`s` itself when `old` is empty). -/
def removeAll (s old : List Char) : List Char :=
  if old.isEmpty then s else removeAllAux old 0 s

/-- Decimal digits read left to right into an accumulator; `none` on a character
that is not a digit. -/
def parseDigits : List Char → Nat → Option Nat
  | [], acc => some acc
  | c :: cs, acc =>
    if c.isDigit then parseDigits cs (acc * 10 + (c.toNat - 48)) else none

/-- Go `strconv.Atoi` on a 64-bit platform: an optional sign, at least one decimal
digit and nothing else, the value within the range of `int`; `none` is a non-nil
error. -/
def atoi (s : List Char) : Option Int :=
  let neg := s.head? = some '-'
  let ds := if s.head? = some '-' ∨ s.head? = some '+' then s.tail else s
  if ds.isEmpty then none
  else
    match parseDigits ds 0 with
    | none => none
    | some n =>
      if neg then (if n ≤ 2 ^ 63 then some (-(n : Int)) else none)
      else (if n < 2 ^ 63 then some (n : Int) else none)

/-- The decimal digits of a natural number, most significant first. -/
def decimal (n : Nat) : List Char := Nat.toDigits 10 n

/-- The decimal text of an integer: a minus sign before the digits of a negative
one. -/
def intDecimal : Int → List Char
  | Int.ofNat n => decimal n
  | Int.negSucc n => '-' :: decimal (n + 1)

/-- Go `dropCR` of `bufio`: one trailing carriage return removed. -/
def dropCR (s : List Char) : List Char :=
  if s.getLast? = some '\r' then s.dropLast else s

/-- First token of a `bufio.Scanner` with the default `ScanLines` split: `none`
when `Scan()` is false (nothing to read), otherwise the text before the first line
feed, without its trailing carriage return. -/
def firstLine (content : List Char) : Option (List Char) :=
  if content.isEmpty then none
  else some (dropCR (content.takeWhile (fun c => c != '\n')))

/-! ## Floating-point values -/

/-- A `float64`: a finite value is the rational it denotes. -/
inductive F64 where
  | fin (q : ℚ)
  | posInf
  | negInf
  | nan
  deriving DecidableEq

/-- Go `x > 0` on a `float64`. -/
def F64.gtZero : F64 → Bool
  | .fin q => decide (0 < q)
  | .posInf => true
  | .negInf => false
  | .nan => false

/-! ## The temperature file reader -/

/-- The function `readTemperatureFromFile` of `main.go`, as a function of the state
of the file: `none` when it cannot be opened, otherwise its text.  The quotient
`float64(temp) / 1000.0` is kept exact; since 10 and 100 are floats and rounding is
monotone, the two comparisons have the same outcome on the rounded quotient. -/
def readTemperatureFromFile (file : Option String) : F64 :=
  match file with
  | none => .fin 0
  | some content =>
    match firstLine content.data with
    | none => .fin 0
    | some line =>
      match atoi (trimSpace line) with
      | none => .fin 0
      | some temp =>
        let tempFloat : ℚ := (temp : ℚ) / 1000
        if tempFloat > 10 ∧ tempFloat < 100 then .fin tempFloat else .fin 0

/-- The integer that is the white-space-trimmed first line of an openable file, as
the reader obtains it; `none` when the file cannot be opened, is empty or its first
line is not an integer. -/
def fileValue (file : Option String) : Option Int :=
  match file with
  | none => none
  | some content =>
    match firstLine content.data with
    | none => none
    | some line => atoi (trimSpace line)

/-- A file is accepted by the reader when the result is not the "no value" result
0.0. -/
def accepted (file : Option String) : Prop := readTemperatureFromFile file ≠ .fin 0

instance (file : Option String) : Decidable (accepted file) := by
  unfold accepted
  infer_instance

/-! ## The CPU and GPU temperature probes -/

/-- The loop `for _, file := range files { if temp := readTemperatureFromFile(file);
temp > 0 { return temp } }` shared by both probes: the value returned from inside
the loop, `none` when the loop runs to its end.  `fs` gives the state of each
path. -/
def firstAccepted (fs : String → Option String) : List String → Option F64
  | [] => none
  | file :: rest =>
    let temp := readTemperatureFromFile (fs file)
    if temp.gtZero then some temp else firstAccepted fs rest

/-- The list `tempFiles` of `getCPUTemperature`. -/
def tempFiles : List String :=
  ["/sys/class/hwmon/hwmon5/temp1_input",
   "/sys/class/thermal/thermal_zone0/temp",
   "/sys/class/thermal/thermal_zone1/temp",
   "/sys/class/thermal/thermal_zone2/temp",
   "/sys/class/thermal/thermal_zone3/temp",
   "/sys/class/thermal/thermal_zone4/temp",
   "/sys/class/thermal/thermal_zone5/temp",
   "/sys/class/thermal/thermal_zone6/temp",
   "/sys/class/thermal/thermal_zone7/temp",
   "/sys/class/thermal/thermal_zone8/temp",
   "/sys/class/thermal/thermal_zone9/temp"]

/-- The list `amdTempFiles` of `getGPUTemperature`. -/
def amdTempFiles : List String :=
  ["/sys/class/drm/card0/device/hwmon/hwmon2/temp1_input",
   "/sys/class/drm/card1/device/hwmon/hwmon3/temp1_input"]

/-- The test on a line of the `sensors` output: it contains "CPU", "Package", "Tdie"
or "Core". -/
def hasLabel (line : List Char) : Bool :=
  contains line "CPU".data || contains line "Package".data ||
    contains line "Tdie".data || contains line "Core".data

/-- The string handed to `strconv.ParseFloat` for a field: every "°C" removed, then
every "+" removed. -/
def tempStr (field : List Char) : List Char :=
  removeAll (removeAll field "°C".data) "+".data

/-- The inner loop of `getCPUTemperature` over the fields of one line: the value
returned from inside the loop, `none` when the loop runs to its end. -/
def scanFields (pf : String → Option F64) : List (List Char) → Option F64
  | [] => none
  | field :: rest =>
    if contains field "°C".data then
      match pf (String.mk (tempStr field)) with
      | some temp => some temp
      | none => scanFields pf rest
    else scanFields pf rest

/-- The outer loop of `getCPUTemperature` over the lines of the `sensors` output. -/
def scanLines (pf : String → Option F64) : List (List Char) → Option F64
  | [] => none
  | line :: rest =>
    if hasLabel line then
      match scanFields pf (fields line) with
      | some temp => some temp
      | none => scanLines pf rest
    else scanLines pf rest

/-- The function `getCPUTemperature` of `main.go`; `pf` is `strconv.ParseFloat(·, 64)` (`none` for
a non-nil error), `fs` the state of the sensor files, `sensors` the outcome of the
`sensors` command. -/
def getCPUTemperature (pf : String → Option F64) (fs : String → Option String)
    (sensors : Option String) : F64 :=
  match firstAccepted fs tempFiles with
  | some temp => temp
  | none =>
    match sensors with
    | none => .fin 0
    | some output =>
      match scanLines pf (splitLines output.data) with
      | some temp => temp
      | none => .fin 0

/-- The fields examined by the fallback of `getCPUTemperature`, in the order of the
scan: the fields containing "°C" of the lines containing a label. -/
def candidates (output : String) : List (List Char) :=
  (((splitLines output.data).filter hasLabel).map
    (fun line => (fields line).filter (fun field => contains field "°C".data))).flatten

/-- The stripping of a field as C6 words it: the "°C" marker removed, then any
leading "+" sign. -/
def claimedTempStr (field : List Char) : List Char :=
  (removeAll field "°C".data).dropWhile (fun c => c == '+')

/-- The result of the fallback as C6 words it: the float parsed from the first
candidate field, stripped as in `claimedTempStr`, that parses; 0.0 when there is
none. -/
def claimedSensorsTemperature (pf : String → Option F64) (output : String) : F64 :=
  ((candidates output).findSome? (fun field => pf (String.mk (claimedTempStr field)))).getD
    (.fin 0)

/-- The first part of `getGPUTemperature`: the value returned from the `nvidia-smi`
branch, `none` when control falls through to the sensor files. -/
def nvidiaTemperature (pf : String → Option F64) (nvidia : Option String) : Option F64 :=
  match nvidia with
  | none => none
  | some output =>
    match splitLines (trimSpace output.data) with
    | [] => none
    | line0 :: _ =>
      if line0 ≠ [] then pf (String.mk (trimSpace line0)) else none

/-- The first line of the trimmed output of `nvidia-smi`, `lines[0]` of
`getGPUTemperature` (`strings.Split` always returns at least one piece). -/
def firstOutputLine (output : String) : List Char :=
  (splitLines (trimSpace output.data)).headD []

/-- The vendor command fails: it does not execute, or its first output line is
empty or does not parse as a float. -/
def vendorFails (pf : String → Option F64) (nvidia : Option String) : Prop :=
  match nvidia with
  | none => True
  | some output =>
    firstOutputLine output = [] ∨ pf (String.mk (trimSpace (firstOutputLine output))) = none

/-- The vendor command executes and its first output line parses as the float
`v`. -/
def vendorYields (pf : String → Option F64) (nvidia : Option String) (v : F64) : Prop :=
  match nvidia with
  | none => False
  | some output =>
    firstOutputLine output ≠ [] ∧ pf (String.mk (trimSpace (firstOutputLine output))) = some v

/-- A parser for plain decimal numerals `[+-]digits[.digits]`, the value being the
number denoted: the part of the syntax of `strconv.ParseFloat` met in the concrete
examples below, where it stands for `pf` (exponents, hexadecimal numerals,
underscores, infinities and NaN, which `ParseFloat` also reads, are rejected by
this instance). -/
def parseDecimal (s : String) : Option F64 :=
  let cs := s.data
  let neg := cs.head? = some '-'
  let body := if cs.head? = some '-' ∨ cs.head? = some '+' then cs.tail else cs
  let ip := body.takeWhile Char.isDigit
  let rest := body.dropWhile Char.isDigit
  let fp := rest.tail
  if (rest.isEmpty ∨ rest.head? = some '.') ∧ fp.all Char.isDigit ∧
      ¬ (ip.isEmpty ∧ fp.isEmpty) then
    let mantissa : ℚ := ((parseDigits (ip ++ fp) 0).getD 0 : Nat)
    some (.fin ((if neg then -mantissa else mantissa) / 10 ^ fp.length))
  else none

/-- A state of the sensor files of the CPU probe: the hwmon5 sensor reports 200 °C
(rejected), thermal_zone0 reports 45 °C, the other files are absent. -/
def cpuFiles (path : String) : Option String :=
  if path = "/sys/class/hwmon/hwmon5/temp1_input" then some "200000\n"
  else if path = "/sys/class/thermal/thermal_zone0/temp" then some "45000\n"
  else none

/-- The state `cpuFiles` with one more file, thermal_zone5, reporting 60 °C. -/
def cpuFilesLater (path : String) : Option String :=
  if path = "/sys/class/thermal/thermal_zone5/temp" then some "60000\n" else cpuFiles path

/-- The function `getGPUTemperature` of `main.go`; `nvidia` is the outcome of the `nvidia-smi`
command. -/
def getGPUTemperature (pf : String → Option F64) (nvidia : Option String)
    (fs : String → Option String) : F64 :=
  match nvidiaTemperature pf nvidia with
  | some temp => temp
  | none =>
    match firstAccepted fs amdTempFiles with
    | some temp => temp
    | none => .fin (-1)

/-! ## The network throughput probe -/

/-- The fields of gopsutil `net.IOCountersStat` that the program reads; the two
counters are `uint64`. -/
structure IOCountersStat where
  Name : String
  BytesSent : Nat
  BytesRecv : Nat
  deriving DecidableEq

/-- The type `NetworkSpeed` of `main.go`. -/
structure NetworkSpeed where
  RX : String
  TX : String
  deriving DecidableEq

/-- Subtraction of two `uint64` values: it wraps modulo `2 ^ 64`. -/
def sub64 (a b : Nat) : Nat := (a + (2 ^ 64 - b % 2 ^ 64)) % 2 ^ 64

/-- The map `initialMap` built by `for _, counter := range initialNetIO
{ initialMap[counter.Name] = counter }`: a later entry replaces an earlier one of
the same name. -/
def initialMap : List IOCountersStat → String → Option IOCountersStat
  | [], _ => none
  | counter :: rest, name =>
    match initialMap rest name with
    | some later => some later
    | none => if counter.Name = name then some counter else none

/-- The loop of `getNetworkSpeed` over `finalNetIO`, from the totals `(totalRX,
totalTX)` reached so far. -/
def accumulate (m : String → Option IOCountersStat) :
    List IOCountersStat → ℚ × ℚ → ℚ × ℚ
  | [], totals => totals
  | finalCounter :: rest, totals =>
    if finalCounter.Name = "lo" then accumulate m rest totals
    else
      match m finalCounter.Name with
      | none => accumulate m rest totals
      | some initialCounter =>
        let rxBytes : ℚ := (sub64 finalCounter.BytesRecv initialCounter.BytesRecv : Nat)
        let txBytes : ℚ := (sub64 finalCounter.BytesSent initialCounter.BytesSent : Nat)
        accumulate m rest (totals.1 + rxBytes, totals.2 + txBytes)

/-- The pair `(totalRX, totalTX)` of `getNetworkSpeed` after its loop. -/
def totals ( initialNetIO finalNetIO : List IOCountersStat) : ℚ × ℚ :=
  accumulate (initialMap initialNetIO) finalNetIO (0, 0)

/-- Rounding of a non-negative rational to the nearest natural number, ties to the
even one. -/
def roundHalfEven (x : ℚ) : Nat :=
  let f := ⌊x⌋.toNat
  let r := x - f
  if r < 1 / 2 then f
  else if 1 / 2 < r then f + 1
  else if f % 2 = 0 then f else f + 1

/-- Go `fmt.Sprintf("%.1f", x)` for a finite `x`: the decimal expansion of `x`
rounded to one digit after the point (ties to even), with a minus sign for a
negative `x`. -/
def sprintf1 (x : ℚ) : String :=
  let tenths := roundHalfEven (|x| * 10)
  (if x < 0 then "-" else "") ++ String.mk (decimal (tenths / 10)) ++ "." ++
    String.mk (decimal (tenths % 10))

/-- The function `formatSpeed` of `main.go`. -/
def formatSpeed (speed : ℚ) : String :=
  if speed < 1024 then sprintf1 speed ++ " KB/s"
  else sprintf1 (speed / 1024) ++ " MB/s"

/-- The pair `(rxSpeed, txSpeed)` of `getNetworkSpeed`, in KB/s. -/
def speeds ( initialNetIO finalNetIO : List IOCountersStat) (timeDiff : ℚ) : ℚ × ℚ :=
  let t := totals initialNetIO finalNetIO
  (t.1 / timeDiff / 1024, t.2 / timeDiff / 1024)

/-- The function `getNetworkSpeed` of `main.go`; `first` and `second` are the outcomes of the two
calls of `net.IOCounters(true)` (`none` for a non-nil error), `timeDiff` the
measured `finalTimestamp.Sub(initialTimestamp).Seconds()`. -/
def getNetworkSpeed (first second : Option (List IOCountersStat)) (timeDiff : ℚ) :
    NetworkSpeed :=
  match first with
  | none => { RX := "N/A", TX := "N/A" }
  | some initialNetIO =>
    match second with
    | none => { RX := "N/A", TX := "N/A" }
    | some finalNetIO =>
      if timeDiff ≤ 0 then { RX := "0 KB/s", TX := "0 KB/s" }
      else
        let s := speeds initialNetIO finalNetIO timeDiff
        { RX := formatSpeed s.1, TX := formatSpeed s.2 }


/-! ## The network totals in closed form -/

/-- An entry of the second snapshot counts: it is not the loopback interface and an
entry of its name is in the first snapshot. -/
def qualifying (initial : List IOCountersStat) (c : IOCountersStat) : Bool :=
  c.Name != "lo" && initial.any (fun ic => ic.Name == c.Name)

/-- The entry of an interface in the first snapshot (the last one when the name is
repeated; a zero entry when there is none). -/
def initialOf (initial : List IOCountersStat) (name : String) : IOCountersStat :=
  ((initial.filter (fun ic => ic.Name == name)).getLast?).getD
    { Name := name, BytesSent := 0, BytesRecv := 0 }

/-- Sum over the qualifying entries of the second snapshot of the received bytes
there minus those in the first snapshot, the difference taken modulo `2 ^ 64`. -/
def sumRX (initial final : List IOCountersStat) : ℚ :=
  ((final.filter (qualifying initial)).map
    (fun c => ((sub64 c.BytesRecv (initialOf initial c.Name).BytesRecv : Nat) : ℚ))).sum

/-- Sum over the qualifying entries of the second snapshot of the sent bytes there
minus those in the first snapshot, the difference taken modulo `2 ^ 64`. -/
def sumTX (initial final : List IOCountersStat) : ℚ :=
  ((final.filter (qualifying initial)).map
    (fun c => ((sub64 c.BytesSent (initialOf initial c.Name).BytesSent : Nat) : ℚ))).sum

/-- The RX total as C3 words it: the sum of the plain differences. -/
def claimedTotalRX (initial final : List IOCountersStat) : ℚ :=
  ((final.filter (qualifying initial)).map
    (fun c => (c.BytesRecv : ℚ) - ((initialOf initial c.Name).BytesRecv : ℚ))).sum

/-- The TX total as C3 words it: the sum of the plain differences. -/
def claimedTotalTX (initial final : List IOCountersStat) : ℚ :=
  ((final.filter (qualifying initial)).map
    (fun c => (c.BytesSent : ℚ) - ((initialOf initial c.Name).BytesSent : ℚ))).sum

/-- The entries of a snapshot other than the loopback interface. -/
def withoutLoopback (snapshot : List IOCountersStat) : List IOCountersStat :=
  snapshot.filter (fun c => c.Name != "lo")

/-- The entries of a snapshot other than those of the interface `name`. -/
def withoutInterface (name : String) (snapshot : List IOCountersStat) :
    List IOCountersStat :=
  snapshot.filter (fun c => c.Name != name)

/-! ## Lemmas on the text routines -/

theorem parseDigits_append (xs ys : List Char) (acc : Nat) :
    parseDigits (xs ++ ys) acc = (parseDigits xs acc).bind (fun a => parseDigits ys a) := by
  induction xs generalizing acc with
  | nil => rfl
  | cons c cs ih =>
    simp only [List.cons_append, parseDigits]
    split
    · exact ih _
    · rfl

theorem toDigitsCore_append (fuel n : Nat) (ds : List Char) :
    Nat.toDigitsCore 10 fuel n ds = Nat.toDigitsCore 10 fuel n [] ++ ds := by
  induction fuel generalizing n ds with
  | zero => rfl
  | succ f ih =>
    simp only [Nat.toDigitsCore]
    split
    · rfl
    · rw [ih (n / 10) (_ :: ds), ih (n / 10) [_]]
      simp

theorem digitChar_isDigit (d : Nat) (h : d < 10) :
    (Nat.digitChar d).isDigit = true ∧ (Nat.digitChar d).toNat - 48 = d := by
  interval_cases d <;> decide

theorem parseDigits_toDigitsCore (fuel n : Nat) (h : n < fuel) :
    parseDigits (Nat.toDigitsCore 10 fuel n []) 0 = some n := by
  induction fuel generalizing n with
  | zero => omega
  | succ f ih =>
    have hd := digitChar_isDigit (n % 10) (Nat.mod_lt _ (by norm_num))
    simp only [Nat.toDigitsCore]
    split
    · rename_i h0
      simp only [parseDigits, hd.1, hd.2, if_true]
      congr 1
      omega
    · rename_i h0
      rw [toDigitsCore_append, parseDigits_append, ih (n / 10) (by omega)]
      simp only [Option.some_bind, parseDigits, hd.1, hd.2, if_true]
      congr 1
      omega

theorem parseDigits_decimal (n : Nat) : parseDigits (decimal n) 0 = some n :=
  parseDigits_toDigitsCore (n + 1) n (Nat.lt_succ_self n)

theorem isDigit_not_isSpace {c : Char} (h : c.isDigit = true) : isSpace c = false := by
  simp only [Char.isDigit, Bool.and_eq_true, decide_eq_true_eq] at h
  have h1 : 48 ≤ c.toNat := by
    have := h.1
    simpa [Char.toNat, UInt32.le_def] using this
  have h2 : c.toNat ≤ 57 := by
    have := h.2
    simpa [Char.toNat, UInt32.le_def] using this
  simp only [isSpace, Bool.or_eq_false_iff, Bool.and_eq_false_iff, decide_eq_false_iff_not,
    beq_eq_false_iff_ne, not_le, ne_eq]
  omega

theorem isDigit_ne {c : Char} (h : c.isDigit = true) :
    c ≠ '\n' ∧ c ≠ '\r' ∧ c ≠ '-' ∧ c ≠ '+' := by
  refine ⟨?_, ?_, ?_, ?_⟩ <;> (intro hc; subst hc; exact absurd h (by decide))

theorem toDigitsCore_isDigit (fuel n : Nat) (ds : List Char) :
    ∀ c ∈ Nat.toDigitsCore 10 fuel n ds, c.isDigit = true ∨ c ∈ ds := by
  induction fuel generalizing n ds with
  | zero => intro c hc; exact Or.inr hc
  | succ f ih =>
    have hd := (digitChar_isDigit (n % 10) (Nat.mod_lt _ (by norm_num))).1
    intro c hc
    simp only [Nat.toDigitsCore] at hc
    split at hc
    · rcases List.mem_cons.1 hc with h | h
      · exact Or.inl (h ▸ hd)
      · exact Or.inr h
    · rcases ih _ _ c hc with h | h
      · exact Or.inl h
      · rcases List.mem_cons.1 h with h | h
        · exact Or.inl (h ▸ hd)
        · exact Or.inr h

theorem decimal_isDigit (n : Nat) : ∀ c ∈ decimal n, c.isDigit = true := by
  intro c hc
  rcases toDigitsCore_isDigit (n + 1) n [] c hc with h | h
  · exact h
  · simp at h

theorem decimal_ne_nil (n : Nat) : decimal n ≠ [] := by
  intro h
  have := parseDigits_decimal n
  rw [h] at this
  simp only [parseDigits, Option.some.injEq] at this
  have h2 : decimal n = Nat.toDigitsCore 10 (n + 1) n [] := rfl
  rw [h2] at h
  simp only [Nat.toDigitsCore] at h
  split at h
  · simp at h
  · rw [toDigitsCore_append] at h
    simp at h

theorem atoi_digits (c : Char) (cs : List Char) (n : Nat) (hc : c.isDigit = true)
    (hp : parseDigits (c :: cs) 0 = some n) :
    atoi (c :: cs) = if n < 2 ^ 63 then some (n : Int) else none := by
  have hcne := isDigit_ne hc
  simp only [atoi, List.head?_cons, Option.some.injEq, hcne.2.2.1, hcne.2.2.2, or_self,
    if_false, List.isEmpty_cons, Bool.false_eq_true, hp]

theorem atoi_minus (c : Char) (cs : List Char) (n : Nat)
    (hp : parseDigits (c :: cs) 0 = some n) :
    atoi ('-' :: c :: cs) = if n ≤ 2 ^ 63 then some (-(n : Int)) else none := by
  simp only [atoi, List.head?_cons, true_or, if_true, List.tail_cons, List.isEmpty_cons,
    Bool.false_eq_true, if_false, hp]

/-- The model of `strconv.Atoi` reads back the decimal text of an integer exactly when the
integer fits in 64 bits. -/
theorem atoi_intDecimal (N : Int) :
    atoi (intDecimal N) = if -2 ^ 63 ≤ N ∧ N < 2 ^ 63 then some N else none := by
  cases N with
  | ofNat n =>
    obtain ⟨c, cs, hcs⟩ := List.exists_cons_of_ne_nil (decimal_ne_nil n)
    have hc : c.isDigit = true := decimal_isDigit n c (by rw [hcs]; simp)
    have hp := parseDigits_decimal n
    rw [hcs] at hp
    have e : intDecimal (Int.ofNat n) = c :: cs := hcs
    rw [e, atoi_digits c cs n hc hp]
    have hn : Int.ofNat n = (n : Int) := rfl
    rw [hn]
    by_cases h : n < 2 ^ 63
    · rw [if_pos h, if_pos]
      constructor <;> omega
    · rw [if_neg h, if_neg]
      intro hh
      omega
  | negSucc n =>
    obtain ⟨c, cs, hcs⟩ := List.exists_cons_of_ne_nil (decimal_ne_nil (n + 1))
    have hp := parseDigits_decimal (n + 1)
    rw [hcs] at hp
    have e : intDecimal (Int.negSucc n) = '-' :: c :: cs := by
      show '-' :: decimal (n + 1) = _
      rw [hcs]
    rw [e, atoi_minus c cs (n + 1) hp]
    have hn : Int.negSucc n = -((n + 1 : Nat) : Int) := rfl
    rw [hn]
    by_cases h : n + 1 ≤ 2 ^ 63
    · rw [if_pos h, if_pos]
      constructor <;> omega
    · rw [if_neg h, if_neg]
      intro hh
      omega

theorem dropWhile_append_of_all (p : Char → Bool) (pre l : List Char)
    (h : ∀ c ∈ pre, p c = true) : (pre ++ l).dropWhile p = l.dropWhile p := by
  induction pre with
  | nil => rfl
  | cons a as ih =>
    have ha : p a = true := h a (by simp)
    simp only [List.cons_append, List.dropWhile_cons, ha, if_true]
    exact ih (fun c hc => h c (by simp [hc]))

theorem dropWhile_of_none (p : Char → Bool) (l : List Char)
    (h : ∀ c ∈ l, p c = false) : l.dropWhile p = l := by
  cases l with
  | nil => rfl
  | cons a as =>
    have ha : p a = false := h a (by simp)
    simp [List.dropWhile_cons, ha]

theorem trimSpace_padded (pre d post : List Char) (hpre : ∀ c ∈ pre, isSpace c = true)
    (hpost : ∀ c ∈ post, isSpace c = true) (hd : ∀ c ∈ d, isSpace c = false) :
    trimSpace (pre ++ d ++ post) = d := by
  unfold trimSpace
  rw [List.append_assoc, dropWhile_append_of_all _ _ _ hpre]
  cases d with
  | nil =>
    simp only [List.nil_append]
    have h1 : post.dropWhile isSpace = [] := by
      have := dropWhile_append_of_all isSpace post [] hpost
      simpa using this
    rw [h1]
    rfl
  | cons a as =>
    have ha : isSpace a = false := hd a (by simp)
    have h2 : ((a :: as) ++ post).dropWhile isSpace = (a :: as) ++ post := by
      simp [List.dropWhile_cons, ha]
    rw [h2, List.reverse_append,
      dropWhile_append_of_all _ _ _ (fun c hc => hpost c (List.mem_reverse.1 hc)),
      dropWhile_of_none _ _ (fun c hc => hd c (List.mem_reverse.1 hc)), List.reverse_reverse]

theorem takeWhile_line (l tail : List Char) (hl : ∀ c ∈ l, c ≠ '\n')
    (ht : tail = [] ∨ ∃ r, tail = '\n' :: r) :
    (l ++ tail).takeWhile (fun c => c != '\n') = l := by
  induction l with
  | nil =>
    rcases ht with h | ⟨r, h⟩ <;> subst h <;> simp
  | cons a as ih =>
    have ha : a ≠ '\n' := hl a (by simp)
    simp only [List.cons_append, List.takeWhile_cons, bne_iff_ne, ne_eq, ha, not_false_eq_true,
      if_true, decide_True]
    rw [ih (fun c hc => hl c (by simp [hc]))]

theorem intDecimal_chars (N : Int) :
    ∀ c ∈ intDecimal N, isSpace c = false ∧ c ≠ '\n' ∧ c ≠ '\r' := by
  have hdig : ∀ n, ∀ c ∈ decimal n, isSpace c = false ∧ c ≠ '\n' ∧ c ≠ '\r' := by
    intro n c hc
    have h := decimal_isDigit n c hc
    exact ⟨isDigit_not_isSpace h, (isDigit_ne h).1, (isDigit_ne h).2.1⟩
  intro c hc
  cases N with
  | ofNat n => exact hdig n c hc
  | negSucc n =>
    rcases List.mem_cons.1 hc with h | h
    · subst h
      exact ⟨by decide, by decide, by decide⟩
    · exact hdig (n + 1) c h

theorem intDecimal_ne_nil (N : Int) : intDecimal N ≠ [] := by
  cases N with
  | ofNat n => exact decimal_ne_nil n
  | negSucc n => simp [intDecimal]

/-- The scanner's first line of a file whose first line is the decimal text `d`
between white space: `d` again between white space. -/
theorem firstLine_padded (pre d post tail : List Char) (hdne : d ≠ [])
    (hpre : ∀ c ∈ pre, isSpace c = true ∧ c ≠ '\n')
    (hpost : ∀ c ∈ post, isSpace c = true ∧ c ≠ '\n')
    (hd : ∀ c ∈ d, isSpace c = false ∧ c ≠ '\n' ∧ c ≠ '\r')
    (ht : tail = [] ∨ ∃ r, tail = '\n' :: r) :
    ∃ post', (∀ c ∈ post', isSpace c = true) ∧
      firstLine (pre ++ d ++ post ++ tail) = some (pre ++ d ++ post') := by
  have hne : (pre ++ d ++ post ++ tail).isEmpty = false := by
    cases pre with
    | nil =>
      cases d with
      | nil => exact absurd rfl hdne
      | cons _ _ => rfl
    | cons _ _ => rfl
  have hall : ∀ c ∈ pre ++ d ++ post, c ≠ '\n' := by
    intro c hc
    simp only [List.mem_append] at hc
    rcases hc with (h | h) | h
    · exact (hpre c h).2
    · exact (hd c h).2.1
    · exact (hpost c h).2
  simp only [firstLine, hne, Bool.false_eq_true, if_false, takeWhile_line _ _ hall ht]
  rcases List.eq_nil_or_concat post with h | ⟨p, x, h⟩
  · subst h
    refine ⟨[], by simp, ?_⟩
    obtain ⟨L, b, hb⟩ : ∃ L b, d = L ++ [b] := by
      rcases List.eq_nil_or_concat d with h | ⟨L, b, h⟩
      · exact absurd h hdne
      · exact ⟨L, b, by rw [h, List.concat_eq_append]⟩
    have hbr : b ≠ '\r' := (hd b (by rw [hb]; simp)).2.2
    have hlast : (pre ++ d ++ []).getLast? = some b := by
      rw [hb]
      simp
    simp only [dropCR, hlast, Option.some.injEq, hbr, if_false]
  · rw [List.concat_eq_append] at h
    subst h
    have hlast : (pre ++ d ++ (p ++ [x])).getLast? = some x := by simp
    by_cases hx : x = '\r'
    · refine ⟨p, fun c hc => (hpost c (by simp [hc])).1, ?_⟩
      have hdl : (pre ++ d ++ (p ++ [x])).dropLast = pre ++ d ++ p := by
        rw [← List.append_assoc, List.dropLast_concat]
      subst hx
      simp only [dropCR, hlast, if_true, hdl]
    · refine ⟨p ++ [x], fun c hc => (hpost c hc).1, ?_⟩
      simp only [dropCR, hlast, Option.some.injEq, hx, if_false]

/-- The integer written in a file (its decimal text on the first line, possibly
between blanks) is the value the reader works with, provided it fits in 64 bits. -/
theorem fileValue_written (N : Int) (pre post tail : List Char)
    (hpre : ∀ c ∈ pre, isSpace c = true ∧ c ≠ '\n')
    (hpost : ∀ c ∈ post, isSpace c = true ∧ c ≠ '\n')
    (ht : tail = [] ∨ ∃ r, tail = '\n' :: r) :
    fileValue (some (String.mk (pre ++ intDecimal N ++ post ++ tail))) =
      if -2 ^ 63 ≤ N ∧ N < 2 ^ 63 then some N else none := by
  obtain ⟨post', hp', hfl⟩ := firstLine_padded pre (intDecimal N) post tail
    (intDecimal_ne_nil N) hpre hpost (intDecimal_chars N) ht
  simp only [fileValue, hfl]
  rw [trimSpace_padded pre _ post' (fun c hc => (hpre c hc).1) hp'
    (fun c hc => (intDecimal_chars N c hc).1)]
  exact atoi_intDecimal N

/-! ## The temperature file reader: C1 -/

theorem read_of_fileValue_none {file : Option String} (h : fileValue file = none) :
    readTemperatureFromFile file = .fin 0 := by
  unfold fileValue at h
  unfold readTemperatureFromFile
  cases file with
  | none => rfl
  | some content =>
    simp only at h ⊢
    cases hl : firstLine content.data with
    | none => rfl
    | some line =>
      rw [hl] at h
      simp only at h ⊢
      rw [h]

theorem read_of_fileValue_some {file : Option String} {N : Int}
    (h : fileValue file = some N) :
    readTemperatureFromFile file =
      if 10 < (N : ℚ) / 1000 ∧ (N : ℚ) / 1000 < 100 then .fin ((N : ℚ) / 1000) else .fin 0 := by
  unfold fileValue at h
  unfold readTemperatureFromFile
  cases file with
  | none => simp at h
  | some content =>
    simp only at h ⊢
    cases hl : firstLine content.data with
    | none => rw [hl] at h; simp at h
    | some line =>
      rw [hl] at h
      simp only at h ⊢
      rw [h]

theorem read_cases (file : Option String) :
    readTemperatureFromFile file = .fin 0 ∨
      ∃ N : Int, fileValue file = some N ∧ 10 < (N : ℚ) / 1000 ∧ (N : ℚ) / 1000 < 100 ∧
        readTemperatureFromFile file = .fin ((N : ℚ) / 1000) := by
  cases h : fileValue file with
  | none => exact Or.inl (read_of_fileValue_none h)
  | some N =>
    by_cases hr : 10 < (N : ℚ) / 1000 ∧ (N : ℚ) / 1000 < 100
    · right
      refine ⟨N, rfl, hr.1, hr.2, ?_⟩
      rw [read_of_fileValue_some h, if_pos hr]
    · left
      rw [read_of_fileValue_some h, if_neg hr]

/-- The test `temp > 0` of the two probes succeeds on the result of the reader
exactly when the file holds an integer in the accepted range. -/
theorem gtZero_read_iff (file : Option String) :
    (readTemperatureFromFile file).gtZero = true ↔
      ∃ N : Int, fileValue file = some N ∧ 10 < (N : ℚ) / 1000 ∧ (N : ℚ) / 1000 < 100 := by
  constructor
  · intro h
    rcases read_cases file with h0 | ⟨N, hN, h1, h2, _⟩
    · rw [h0] at h
      simp [F64.gtZero] at h
    · exact ⟨N, hN, h1, h2⟩
  · rintro ⟨N, hN, h1, h2⟩
    rw [read_of_fileValue_some hN, if_pos ⟨h1, h2⟩]
    simp only [F64.gtZero, decide_eq_true_eq]
    linarith

theorem gtZero_read_false_iff (file : Option String) :
    (readTemperatureFromFile file).gtZero = false ↔ readTemperatureFromFile file = .fin 0 := by
  constructor
  · intro h
    rcases read_cases file with h0 | ⟨N, hN, h1, h2, _⟩
    · exact h0
    · have := (gtZero_read_iff file).2 ⟨N, hN, h1, h2⟩
      rw [this] at h
      exact absurd h (by simp)
  · intro h
    rw [h]
    simp [F64.gtZero]

/-- C1 (as amended): when an integer `N` is the trimmed first line of the file, the
reader returns `N/1000` if `10 < N/1000 < 100` and `0.0` otherwise, so for `N ≠ 0`
it returns `N/1000` exactly when `10 < N/1000 < 100`; this holds in particular for
every integer `N` written in decimal on the first line, between blanks.  When the
first line is not an integer, the file is empty or it cannot be opened, the reader
returns `0.0`. -/
theorem readTemperatureFromFile_spec (file : Option String) :
    (∀ N : Int, fileValue file = some N →
      (10 < (N : ℚ) / 1000 ∧ (N : ℚ) / 1000 < 100 →
        readTemperatureFromFile file = .fin ((N : ℚ) / 1000)) ∧
      (¬ (10 < (N : ℚ) / 1000 ∧ (N : ℚ) / 1000 < 100) →
        readTemperatureFromFile file = .fin 0) ∧
      (N ≠ 0 → (readTemperatureFromFile file = .fin ((N : ℚ) / 1000) ↔
        10 < (N : ℚ) / 1000 ∧ (N : ℚ) / 1000 < 100))) ∧
    (∀ (N : Int) (pre post tail : List Char),
      (∀ c ∈ pre, isSpace c = true ∧ c ≠ '\n') → (∀ c ∈ post, isSpace c = true ∧ c ≠ '\n') →
      (tail = [] ∨ ∃ r, tail = '\n' :: r) →
      file = some (String.mk (pre ++ intDecimal N ++ post ++ tail)) →
      readTemperatureFromFile file =
        if 10 < (N : ℚ) / 1000 ∧ (N : ℚ) / 1000 < 100 then .fin ((N : ℚ) / 1000)
        else .fin 0) ∧
    (∀ content line, file = some content → firstLine content.data = some line →
      atoi (trimSpace line) = none → readTemperatureFromFile file = .fin 0) ∧
    (∀ content : String, file = some content → content.data = [] →
      readTemperatureFromFile file = .fin 0) ∧
    (file = none → readTemperatureFromFile file = .fin 0) := by
  refine ⟨?_, ?_, ?_, ?_, ?_⟩
  · intro N hN
    have key := read_of_fileValue_some hN
    refine ⟨fun hr => by rw [key, if_pos hr], fun hr => by rw [key, if_neg hr], ?_⟩
    intro hne
    constructor
    · intro h
      by_contra hr
      rw [key, if_neg hr] at h
      injection h with h
      have h' := h.symm
      field_simp at h'
      exact hne h'
    · intro hr
      rw [key, if_pos hr]
  · intro N pre post tail hpre hpost ht hf
    have hv := fileValue_written N pre post tail hpre hpost ht
    rw [← hf] at hv
    by_cases hfit : -2 ^ 63 ≤ N ∧ N < 2 ^ 63
    · rw [if_pos hfit] at hv
      exact read_of_fileValue_some hv
    · rw [if_neg hfit] at hv
      rw [read_of_fileValue_none hv, if_neg]
      rintro ⟨h1, h2⟩
      apply hfit
      have h1' : (10000 : ℚ) < N := by linarith
      have h2' : (N : ℚ) < 100000 := by linarith
      have h3 : (10000 : Int) < N := by exact_mod_cast h1'
      have h4 : N < (100000 : Int) := by exact_mod_cast h2'
      constructor <;> omega
  · intro content line hf hl ha
    apply read_of_fileValue_none
    subst hf
    simp only [fileValue, hl, ha]
  · intro content hf hc
    apply read_of_fileValue_none
    subst hf
    simp [fileValue, firstLine, hc]
  · intro hf
    subst hf
    rfl

/-- The amended statement of C1 at the file "45000": the reader returns 45.0. -/
theorem readTemperatureFromFile_spec_witness :
    fileValue (some "45000\n") = some 45000 ∧
      readTemperatureFromFile (some "45000\n") = .fin ((45000 : Int) / 1000) :=
  ⟨by decide, ((readTemperatureFromFile_spec (some "45000\n")).1 45000 (by decide)).1
    (by norm_num)⟩

/-- C1 fails as stated at the file "0": the integer 0 is its first line and the
reader returns 0.0, which is `N/1000`, although `10 < N/1000 < 100` is false. -/
theorem readTemperatureFromFile_zero_counterexample :
    fileValue (some "0\n") = some 0 ∧
      ¬ (readTemperatureFromFile (some "0\n") = .fin (((0 : Int) : ℚ) / 1000) ↔
        10 < ((0 : Int) : ℚ) / 1000 ∧ ((0 : Int) : ℚ) / 1000 < 100) := by
  refine ⟨by decide, ?_⟩
  intro h
  have h1 : readTemperatureFromFile (some "0\n") = .fin (((0 : Int) : ℚ) / 1000) := by decide!
  have := h.1 h1
  norm_num at this

/-! ## The file loop of the two probes -/

theorem accepted_iff_gtZero (file : Option String) :
    accepted file ↔ (readTemperatureFromFile file).gtZero = true := by
  unfold accepted
  have h := gtZero_read_false_iff file
  constructor
  · intro hne
    by_contra hg
    exact hne (h.1 (by simpa using hg))
  · intro hg h0
    rw [h.2 h0] at hg
    exact absurd hg (by simp)

/-- A file is accepted exactly when an integer in the range is its first line. -/
theorem accepted_iff_inRange (file : Option String) :
    accepted file ↔
      ∃ N : Int, fileValue file = some N ∧ 10 < (N : ℚ) / 1000 ∧ (N : ℚ) / 1000 < 100 := by
  rw [accepted_iff_gtZero, gtZero_read_iff]

theorem firstAccepted_eq_none_iff (fs : String → Option String) (files : List String) :
    firstAccepted fs files = none ↔ ∀ f ∈ files, ¬ accepted (fs f) := by
  induction files with
  | nil => simp [firstAccepted]
  | cons f rest ih =>
    simp only [firstAccepted, List.mem_cons, forall_eq_or_imp]
    by_cases h : (readTemperatureFromFile (fs f)).gtZero = true
    · simp [h, accepted_iff_gtZero]
    · simp only [h, Bool.false_eq_true, if_false, ih, accepted_iff_gtZero, not_false_eq_true,
        true_and]

theorem firstAccepted_gtZero (fs : String → Option String) (files : List String) (t : F64)
    (h : firstAccepted fs files = some t) :
    t.gtZero = true ∧ ∃ f ∈ files, t = readTemperatureFromFile (fs f) := by
  induction files with
  | nil => simp [firstAccepted] at h
  | cons f rest ih =>
    simp only [firstAccepted] at h
    by_cases hg : (readTemperatureFromFile (fs f)).gtZero = true
    · simp only [hg, if_true, Option.some.injEq] at h
      subst h
      exact ⟨hg, f, by simp, rfl⟩
    · simp only [hg, Bool.false_eq_true, if_false] at h
      obtain ⟨h1, g, hg1, hg2⟩ := ih h
      exact ⟨h1, g, by simp [hg1], hg2⟩

theorem firstAccepted_index (fs : String → Option String) (files : List String) (i : Nat)
    (hi : i < files.length)
    (hbefore : ∀ j (hj : j < i), ¬ accepted (fs (files.get ⟨j, lt_trans hj hi⟩)))
    (hat : accepted (fs (files.get ⟨i, hi⟩))) :
    firstAccepted fs files = some (readTemperatureFromFile (fs (files.get ⟨i, hi⟩))) := by
  induction files generalizing i with
  | nil => simp at hi
  | cons f rest ih =>
    cases i with
    | zero =>
      have h : (readTemperatureFromFile (fs f)).gtZero = true :=
        (accepted_iff_gtZero _).1 hat
      simp [firstAccepted, h]
    | succ k =>
      have h0 : ¬ accepted (fs f) := hbefore 0 (Nat.succ_pos k)
      have h : (readTemperatureFromFile (fs f)).gtZero = false := by
        rw [accepted_iff_gtZero] at h0
        simpa using h0
      simp only [firstAccepted, h, Bool.false_eq_true, if_false, List.get_cons_succ]
      have hk : k < rest.length := by simpa using hi
      exact ih k hk (fun j hj => hbefore (j + 1) (Nat.succ_lt_succ hj)) hat

/-! ## The CPU probe prefers the first accepted file: C9 -/

/-- C9: if the file at position `i` of the list (the hwmon5 sensor, then
thermal_zone0 to thermal_zone9) is accepted by the reader and no earlier one is,
`getCPUTemperature` returns the value read from it, whatever the later files, the
output of the diagnostic command and the float parser are: any other run that
agrees on the files up to position `i` returns the same value. -/
theorem getCPUTemperature_first_accepted (pf pf' : String → Option F64)
    (fs fs' : String → Option String) (sensors sensors' : Option String)
    (i : Nat) (hi : i < tempFiles.length)
    (hbefore : ∀ j (hj : j < i), ¬ accepted (fs (tempFiles.get ⟨j, lt_trans hj hi⟩)))
    (hat : accepted (fs (tempFiles.get ⟨i, hi⟩)))
    (hagree : ∀ j (hj : j ≤ i),
      fs' (tempFiles.get ⟨j, lt_of_le_of_lt hj hi⟩) =
        fs (tempFiles.get ⟨j, lt_of_le_of_lt hj hi⟩)) :
    getCPUTemperature pf fs sensors = readTemperatureFromFile (fs (tempFiles.get ⟨i, hi⟩)) ∧
      getCPUTemperature pf' fs' sensors' =
        readTemperatureFromFile (fs (tempFiles.get ⟨i, hi⟩)) := by
  constructor
  · simp only [getCPUTemperature, firstAccepted_index fs tempFiles i hi hbefore hat]
  · have hb' : ∀ j (hj : j < i), ¬ accepted (fs' (tempFiles.get ⟨j, lt_trans hj hi⟩)) := by
      intro j hj
      rw [hagree j (le_of_lt hj)]
      exact hbefore j hj
    have ha' : accepted (fs' (tempFiles.get ⟨i, hi⟩)) := by
      rw [hagree i (le_refl i)]
      exact hat
    simp only [getCPUTemperature, firstAccepted_index fs' tempFiles i hi hb' ha']
    rw [hagree i (le_refl i)]

/-- C9 at a concrete state: hwmon5 is rejected, thermal_zone0 holds 45000, and the
probe returns 45.0 with or without a later accepted file and a diagnostic output. -/
theorem getCPUTemperature_first_accepted_witness :
    ¬ accepted (cpuFiles "/sys/class/hwmon/hwmon5/temp1_input") ∧
      accepted (cpuFiles "/sys/class/thermal/thermal_zone0/temp") ∧
      getCPUTemperature parseDecimal cpuFiles none = .fin 45 ∧
      getCPUTemperature (fun _ => none) cpuFilesLater
        (some "Package id 0:  +70.0°C  (high = 80.0°C)") = .fin 45 := by
  have h := getCPUTemperature_first_accepted parseDecimal (fun _ => none) cpuFiles
    cpuFilesLater none (some "Package id 0:  +70.0°C  (high = 80.0°C)") 1 (by decide)
    (fun j hj => by
      interval_cases j
      show ¬ accepted (cpuFiles (tempFiles.get ⟨0, by decide⟩))
      decide!)
    (by decide!)
    (fun j hj => by
      interval_cases j
      · show cpuFilesLater (tempFiles.get ⟨0, by decide⟩) =
          cpuFiles (tempFiles.get ⟨0, by decide⟩)
        decide!
      · show cpuFilesLater (tempFiles.get ⟨1, by decide⟩) =
          cpuFiles (tempFiles.get ⟨1, by decide⟩)
        decide!)
  have hv : readTemperatureFromFile (cpuFiles (tempFiles.get ⟨1, by decide⟩)) = .fin 45 := by
    decide!
  rw [hv] at h
  exact ⟨by decide!, by decide!, h.1, h.2⟩

/-! ## The GPU probe and its sentinel: C2 -/

theorem splitLines_ne_nil (s : List Char) : splitLines s ≠ [] := by
  cases s with
  | nil => simp [splitLines]
  | cons c cs =>
    simp only [splitLines]
    split
    · simp
    · split <;> simp

theorem nvidiaTemperature_some (pf : String → Option F64) (output : String) :
    nvidiaTemperature pf (some output) =
      if firstOutputLine output ≠ [] then pf (String.mk (trimSpace (firstOutputLine output)))
      else none := by
  simp only [nvidiaTemperature, firstOutputLine]
  cases h : splitLines (trimSpace output.data) with
  | nil => exact absurd h (splitLines_ne_nil _)
  | cons line0 rest => rfl

theorem nvidiaTemperature_eq_none_iff (pf : String → Option F64) (nvidia : Option String) :
    nvidiaTemperature pf nvidia = none ↔ vendorFails pf nvidia := by
  cases nvidia with
  | none => simp [nvidiaTemperature, vendorFails]
  | some output =>
    rw [nvidiaTemperature_some]
    simp only [vendorFails]
    by_cases h : firstOutputLine output = []
    · simp [h]
    · simp [h]

theorem nvidiaTemperature_eq_some_iff (pf : String → Option F64) (nvidia : Option String)
    (v : F64) : nvidiaTemperature pf nvidia = some v ↔ vendorYields pf nvidia v := by
  cases nvidia with
  | none => simp [nvidiaTemperature, vendorYields]
  | some output =>
    rw [nvidiaTemperature_some]
    simp only [vendorYields]
    by_cases h : firstOutputLine output = []
    · simp [h]
    · simp [h]

/-- C2 (as amended): `getGPUTemperature` returns -1.0 exactly when either the vendor
command executes and its first output line parses as the float -1.0 itself, or the
vendor command fails (does not execute, or its first output line is empty or does
not parse) and no fallback file holds an integer `N` with `10 < N/1000 < 100`. -/
theorem getGPUTemperature_sentinel_iff (pf : String → Option F64) (nvidia : Option String)
    (fs : String → Option String) :
    getGPUTemperature pf nvidia fs = .fin (-1) ↔
      vendorYields pf nvidia (.fin (-1)) ∨
        (vendorFails pf nvidia ∧
          ∀ f ∈ amdTempFiles, ¬ ∃ N : Int, fileValue (fs f) = some N ∧
            10 < (N : ℚ) / 1000 ∧ (N : ℚ) / 1000 < 100) := by
  have hfiles : (∀ f ∈ amdTempFiles, ¬ ∃ N : Int, fileValue (fs f) = some N ∧
      10 < (N : ℚ) / 1000 ∧ (N : ℚ) / 1000 < 100) ↔ firstAccepted fs amdTempFiles = none := by
    rw [firstAccepted_eq_none_iff]
    constructor
    · intro h f hf
      rw [accepted_iff_inRange]
      exact h f hf
    · intro h f hf
      rw [← accepted_iff_inRange]
      exact h f hf
  rw [hfiles, ← nvidiaTemperature_eq_none_iff, ← nvidiaTemperature_eq_some_iff]
  unfold getGPUTemperature
  cases hn : nvidiaTemperature pf nvidia with
  | some v =>
    simp only [Option.some.injEq, false_and, or_false, reduceCtorEq]
  | none =>
    simp only [true_and, false_or, reduceCtorEq]
    cases hf : firstAccepted fs amdTempFiles with
    | none => simp
    | some t =>
      have hg := (firstAccepted_gtZero fs amdTempFiles t hf).1
      simp only [reduceCtorEq, iff_false]
      intro ht
      rw [ht] at hg
      norm_num [F64.gtZero] at hg

/-- C2 (as amended) at two concrete runs: with the output "N/A" and no sensor file
the probe returns -1.0; with the output "45.0" it returns 45.0. -/
theorem getGPUTemperature_sentinel_iff_witness :
    getGPUTemperature parseDecimal (some "N/A\n") (fun _ => none) = .fin (-1) ∧
      getGPUTemperature parseDecimal (some "45.0\n") (fun _ => none) ≠ .fin (-1) := by
  constructor
  · rw [getGPUTemperature_sentinel_iff]
    right
    constructor
    · simp only [vendorFails]
      decide!
    · decide!
  · decide!

/-- C2 fails as stated when `nvidia-smi` prints "-1": the command executes, its
first output line parses as a float, so the vendor command does not fail, and yet
the probe returns -1.0. -/
theorem getGPUTemperature_sentinel_counterexample :
    ¬ (getGPUTemperature parseDecimal (some "-1\n") (fun _ => none) = .fin (-1) ↔
      (vendorFails parseDecimal (some "-1\n") ∧
        ∀ f ∈ amdTempFiles, ¬ ∃ N : Int, fileValue ((fun _ => none : String → Option String) f) = some N ∧
          10 < (N : ℚ) / 1000 ∧ (N : ℚ) / 1000 < 100)) := by
  intro h
  have h1 : getGPUTemperature parseDecimal (some "-1\n") (fun _ => none) = .fin (-1) := by
    decide!
  have h2 := (h.1 h1).1
  simp only [vendorFails] at h2
  revert h2
  decide!

/-! ## The diagnostic-command fallback of the CPU probe: C6 -/

theorem scanFields_eq_findSome (pf : String → Option F64) (fs : List (List Char)) :
    scanFields pf fs =
      (fs.filter (fun field => contains field "°C".data)).findSome?
        (fun field => pf (String.mk (tempStr field))) := by
  induction fs with
  | nil => rfl
  | cons f rest ih =>
    simp only [scanFields, List.filter_cons]
    by_cases hc : contains f "°C".data = true
    · simp only [hc, if_true, List.findSome?_cons]
      cases pf (String.mk (tempStr f)) with
      | none => exact ih
      | some t => rfl
    · simp only [hc, Bool.false_eq_true, if_false]
      exact ih

theorem scanLines_eq_findSome (pf : String → Option F64) (lines : List (List Char)) :
    scanLines pf lines =
      (((lines.filter hasLabel).map
        (fun line => (fields line).filter (fun field => contains field "°C".data))).flatten).findSome?
        (fun field => pf (String.mk (tempStr field))) := by
  induction lines with
  | nil => rfl
  | cons l rest ih =>
    simp only [scanLines, List.filter_cons]
    by_cases hl : hasLabel l = true
    · simp only [hl, if_true, List.map_cons, List.flatten_cons, List.findSome?_append,
        scanFields_eq_findSome]
      cases ((fields l).filter (fun field => contains field "°C".data)).findSome?
          (fun field => pf (String.mk (tempStr field))) with
      | none => simpa using ih
      | some t => rfl
    · simp only [hl, Bool.false_eq_true, if_false]
      exact ih

/-- When no sensor file is accepted and the diagnostic command succeeds, the CPU
probe returns the first successful parse among the candidate fields, 0.0 when there
is none. -/
theorem getCPUTemperature_eq_findSome (pf : String → Option F64)
    (fs : String → Option String) (output : String)
    (hfiles : ∀ f ∈ tempFiles, ¬ accepted (fs f)) :
    getCPUTemperature pf fs (some output) =
      ((candidates output).findSome? (fun field => pf (String.mk (tempStr field)))).getD
        (.fin 0) := by
  have h0 := (firstAccepted_eq_none_iff fs tempFiles).2 hfiles
  simp only [getCPUTemperature, h0, scanLines_eq_findSome, candidates]
  cases List.findSome? _ _ <;> rfl

theorem findSome_first {α β : Type} (f : α → Option β) (before after : List α) (a : α) (b : β)
    (hb : ∀ x ∈ before, f x = none) (ha : f a = some b) :
    (before ++ a :: after).findSome? f = some b := by
  induction before with
  | nil => simp [List.findSome?_cons, ha]
  | cons x xs ih =>
    simp only [List.cons_append, List.findSome?_cons, hb x (by simp)]
    exact ih (fun y hy => hb y (by simp [hy]))

theorem findSome_none {α β : Type} (f : α → Option β) (l : List α)
    (h : ∀ x ∈ l, f x = none) : l.findSome? f = none := by
  induction l with
  | nil => rfl
  | cons x xs ih =>
    simp only [List.findSome?_cons, h x (by simp)]
    exact ih (fun y hy => h y (by simp [hy]))

/-- C6 (as amended): when no sensor file is accepted and the diagnostic command
succeeds, `getCPUTemperature` examines, line by line, the white-space-delimited
tokens containing "°C" of the lines containing "CPU", "Package", "Tdie" or "Core";
it returns the float parsed from the first such token whose text, with every "°C"
and every "+" sign removed (not only a leading "+"), parses as a float, and 0.0 when
no token qualifies; when the only line with a label is
`Package id 0:  +45.0°C  (high = 80.0°C)` and "45.0" parses as 45.0 it returns
45.0. -/
theorem getCPUTemperature_sensors (pf : String → Option F64)
    (fs : String → Option String) (output : String)
    (hfiles : ∀ f ∈ tempFiles, ¬ accepted (fs f)) :
    (∀ (before after : List (List Char)) (field : List Char) (v : F64),
      candidates output = before ++ field :: after →
      (∀ g ∈ before, pf (String.mk (tempStr g)) = none) →
      pf (String.mk (tempStr field)) = some v →
      getCPUTemperature pf fs (some output) = v) ∧
    ((∀ g ∈ candidates output, pf (String.mk (tempStr g)) = none) →
      getCPUTemperature pf fs (some output) = .fin 0) ∧
    ((splitLines output.data).filter hasLabel =
        ["Package id 0:  +45.0°C  (high = 80.0°C)".data] →
      pf "45.0" = some (.fin 45) →
      getCPUTemperature pf fs (some output) = .fin 45) := by
  have key := getCPUTemperature_eq_findSome pf fs output hfiles
  refine ⟨?_, ?_, ?_⟩
  · intro before after field v hc hb hv
    rw [key, hc, findSome_first _ before after field v hb hv]
    rfl
  · intro h
    rw [key, findSome_none _ _ h]
    rfl
  · intro hl hp
    have hc : candidates output = [] ++ "+45.0°C".data :: ["80.0°C)".data] := by
      simp only [candidates, hl]
      decide
    have ht : (String.mk (tempStr "+45.0°C".data)) = "45.0" := by decide
    rw [key, hc, findSome_first _ [] _ _ (.fin 45) (by simp) (by rw [ht]; exact hp)]
    rfl

/-- C6 (as amended) at a concrete run: all sensor files are absent and the output
of `sensors` has the line `Package id 0:  +45.0°C  (high = 80.0°C)`. -/
theorem getCPUTemperature_sensors_witness :
    getCPUTemperature parseDecimal (fun _ => none)
      (some "coretemp-isa-0000\nAdapter: ISA adapter\nPackage id 0:  +45.0°C  (high = 80.0°C)\n")
      = .fin 45 :=
  (getCPUTemperature_sensors parseDecimal (fun _ => none)
    "coretemp-isa-0000\nAdapter: ISA adapter\nPackage id 0:  +45.0°C  (high = 80.0°C)\n"
    (by decide!)).2.2 (by decide) (by decide!)

/-- C6 fails as stated on the output `Core 0: 4+5°C`: the code removes every "+"
sign and returns 45.0, whereas stripping only a leading "+" leaves "4+5", which
does not parse, so that the claim gives 0.0. -/
theorem getCPUTemperature_sensors_counterexample :
    getCPUTemperature parseDecimal (fun _ => none) (some "Core 0: 4+5°C") = .fin 45 ∧
      claimedSensorsTemperature parseDecimal "Core 0: 4+5°C" = .fin 0 := by
  constructor <;> decide!

/-! ## The network totals -/

theorem initialMap_eq_getLast (init : List IOCountersStat) (name : String) :
    initialMap init name = (init.filter (fun ic => ic.Name == name)).getLast? := by
  induction init with
  | nil => rfl
  | cons c rest ih =>
    simp only [initialMap, ih, List.filter_cons]
    by_cases hc : c.Name = name
    · simp only [hc, beq_self_eq_true, if_true]
      cases hr : List.filter (fun ic => ic.Name == name) rest with
      | nil => simp
      | cons a as =>
        rw [List.getLast?_cons_cons]
        have hne : (a :: as).getLast? = some ((a :: as).getLast (by simp)) :=
          List.getLast?_eq_getLast _ _
        rw [hne]
    · have hb : (c.Name == name) = false := by simpa using hc
      simp only [hc, hb, Bool.false_eq_true, if_false]
      cases (List.filter (fun ic => ic.Name == name) rest).getLast? <;> rfl

theorem initialMap_isSome (init : List IOCountersStat) (name : String) :
    (initialMap init name).isSome = init.any (fun ic => ic.Name == name) := by
  induction init with
  | nil => rfl
  | cons c rest ih =>
    simp only [initialMap, List.any_cons]
    cases hr : initialMap rest name with
    | some later =>
      rw [hr] at ih
      simp [← ih]
    | none =>
      rw [hr] at ih
      simp only [Option.isSome_none] at ih
      rw [← ih]
      by_cases hc : c.Name = name <;> simp [hc]

theorem initialMap_some (init : List IOCountersStat) (name : String) (ic : IOCountersStat)
    (h : initialMap init name = some ic) :
    initialOf init name = ic ∧ init.any (fun x => x.Name == name) = true := by
  constructor
  · simp only [initialOf, ← initialMap_eq_getLast, h, Option.getD_some]
  · rw [← initialMap_isSome, h]
    rfl

theorem initialMap_none (init : List IOCountersStat) (name : String)
    (h : initialMap init name = none) : init.any (fun x => x.Name == name) = false := by
  rw [← initialMap_isSome, h]
  rfl

/-- The loop of `getNetworkSpeed` adds to the running totals the closed-form sums. -/
theorem accumulate_eq_sum (init fin : List IOCountersStat) (acc : ℚ × ℚ) :
    accumulate (initialMap init) fin acc =
      (acc.1 + sumRX init fin, acc.2 + sumTX init fin) := by
  induction fin generalizing acc with
  | nil => simp [accumulate, sumRX, sumTX]
  | cons c rest ih =>
    simp only [accumulate]
    by_cases hlo : c.Name = "lo"
    · have hq : qualifying init c = false := by simp [qualifying, hlo]
      simp only [hlo, if_true, ih, sumRX, sumTX, List.filter_cons, hq, Bool.false_eq_true,
        if_false]
    · simp only [hlo, if_false]
      cases hm : initialMap init c.Name with
      | none =>
        have hq : qualifying init c = false := by
          simp only [qualifying, initialMap_none init c.Name hm, Bool.and_false]
        simp only [ih, sumRX, sumTX, List.filter_cons, hq, Bool.false_eq_true, if_false]
      | some ic =>
        obtain ⟨h1, h2⟩ := initialMap_some init c.Name ic hm
        have hq : qualifying init c = true := by
          simp only [qualifying, h2, Bool.and_true, bne_iff_ne, ne_eq, hlo, not_false_eq_true]
        simp only [ih, sumRX, sumTX, List.filter_cons, hq, if_true, List.map_cons,
          List.sum_cons, h1]
        ext <;> simp only [] <;> ring

theorem totals_eq_sum (init fin : List IOCountersStat) :
    totals init fin = (sumRX init fin, sumTX init fin) := by
  simp only [totals, accumulate_eq_sum, zero_add]

theorem sub64_of_le (a b : Nat) (ha : a < 2 ^ 64) (hb : b ≤ a) : sub64 a b = a - b := by
  unfold sub64
  have hb' : b % 2 ^ 64 = b := Nat.mod_eq_of_lt (lt_of_le_of_lt hb ha)
  rw [hb']
  have e : a + (2 ^ 64 - b) = (a - b) + 2 ^ 64 := by omega
  rw [e, Nat.add_mod_right]
  exact Nat.mod_eq_of_lt (by omega)

theorem sub64_of_lt (a b : Nat) (hb : b < 2 ^ 64) (hab : a < b) :
    sub64 a b = 2 ^ 64 + a - b := by
  unfold sub64
  rw [Nat.mod_eq_of_lt hb]
  have e : a + (2 ^ 64 - b) = 2 ^ 64 + a - b := by omega
  rw [e]
  exact Nat.mod_eq_of_lt (by omega)

theorem getNetworkSpeed_eq (init fin : List IOCountersStat) (t : ℚ) (ht : 0 < t) :
    getNetworkSpeed (some init) (some fin) t =
      { RX := formatSpeed (sumRX init fin / t / 1024),
        TX := formatSpeed (sumTX init fin / t / 1024) } := by
  simp only [getNetworkSpeed, not_le.2 ht, if_false, speeds, totals_eq_sum]

theorem formatSpeed_1024 : formatSpeed 1024 = "1.0 MB/s" := by decide!

/-! ## The rates of the network probe: C3 -/

/-- C3 (as amended): for every pair of snapshots and every positive elapsed time
`t`, the RX (resp. TX) rate is the sum, over the entries of the second snapshot that
are not the loopback interface and whose name is in the first snapshot, of
bytesReceived (resp. bytesSent) in the second snapshot minus that in the first, the
difference taken modulo `2 ^ 64`, divided by `t` and by 1024, and the reported
strings are `formatSpeed` of these rates; the sums are the sums of the plain
differences when no counter of a qualifying entry decreased; when "eth0" alone
gains 1,048,576 received bytes over `t = 1` the rate is 1024 KB/s and RX is
"1.0 MB/s". -/
theorem getNetworkSpeed_rates (init fin : List IOCountersStat) (t : ℚ) (ht : 0 < t) :
    (speeds init fin t).1 = sumRX init fin / t / 1024 ∧
    (speeds init fin t).2 = sumTX init fin / t / 1024 ∧
    getNetworkSpeed (some init) (some fin) t =
      { RX := formatSpeed ((speeds init fin t).1), TX := formatSpeed ((speeds init fin t).2) } ∧
    ((∀ c ∈ fin, qualifying init c = true →
        c.BytesRecv < 2 ^ 64 ∧ (initialOf init c.Name).BytesRecv ≤ c.BytesRecv) →
      sumRX init fin = claimedTotalRX init fin) ∧
    ((∀ c ∈ fin, qualifying init c = true →
        c.BytesSent < 2 ^ 64 ∧ (initialOf init c.Name).BytesSent ≤ c.BytesSent) →
      sumTX init fin = claimedTotalTX init fin) ∧
    (∀ s s' a : Nat, a + 1048576 < 2 ^ 64 →
      (speeds [{ Name := "eth0", BytesSent := s, BytesRecv := a }]
        [{ Name := "eth0", BytesSent := s', BytesRecv := a + 1048576 }] 1).1 = 1024 ∧
      (getNetworkSpeed (some [{ Name := "eth0", BytesSent := s, BytesRecv := a }])
        (some [{ Name := "eth0", BytesSent := s', BytesRecv := a + 1048576 }]) 1).RX =
        "1.0 MB/s") := by
  have hs : speeds init fin t = (sumRX init fin / t / 1024, sumTX init fin / t / 1024) := by
    simp only [speeds, totals_eq_sum]
  refine ⟨by rw [hs], by rw [hs], ?_, ?_, ?_, ?_⟩
  · rw [hs]
    exact getNetworkSpeed_eq init fin t ht
  · intro h
    simp only [sumRX, claimedTotalRX]
    congr 1
    apply List.map_congr_left
    intro c hc
    obtain ⟨hc1, hc2⟩ := List.mem_filter.1 hc
    obtain ⟨h1, h2⟩ := h c hc1 hc2
    rw [sub64_of_le _ _ h1 h2, Nat.cast_sub h2]
  · intro h
    simp only [sumTX, claimedTotalTX]
    congr 1
    apply List.map_congr_left
    intro c hc
    obtain ⟨hc1, hc2⟩ := List.mem_filter.1 hc
    obtain ⟨h1, h2⟩ := h c hc1 hc2
    rw [sub64_of_le _ _ h1 h2, Nat.cast_sub h2]
  · intro s s' a ha
    have hq : qualifying [{ Name := "eth0", BytesSent := s, BytesRecv := a }]
        { Name := "eth0", BytesSent := s', BytesRecv := a + 1048576 } = true := by
      simp [qualifying]
    have hi : initialOf [{ Name := "eth0", BytesSent := s, BytesRecv := a }] "eth0" =
        { Name := "eth0", BytesSent := s, BytesRecv := a } := by
      simp [initialOf]
    have hsum : sumRX [{ Name := "eth0", BytesSent := s, BytesRecv := a }]
        [{ Name := "eth0", BytesSent := s', BytesRecv := a + 1048576 }] = 1048576 := by
      simp only [sumRX, List.filter_cons, hq, if_true, List.filter_nil, List.map_cons,
        List.map_nil, List.sum_cons, List.sum_nil, hi, add_zero]
      rw [sub64_of_le _ _ ha (Nat.le_add_right a 1048576)]
      simp
    constructor
    · simp only [speeds, totals_eq_sum, hsum]
      norm_num
    · rw [getNetworkSpeed_eq _ _ 1 (by norm_num), hsum]
      have e : (1048576 : ℚ) / 1 / 1024 = 1024 := by norm_num
      rw [e]
      exact formatSpeed_1024

/-- C3 (as amended) at a concrete pair of snapshots: "eth0" goes from 100 to
1,048,676 received bytes in one second, beside a loopback entry and a new
interface. -/
theorem getNetworkSpeed_rates_witness :
    (0 : ℚ) < 1 ∧
      getNetworkSpeed
        (some [{ Name := "eth0", BytesSent := 7, BytesRecv := 100 },
          { Name := "lo", BytesSent := 5, BytesRecv := 5 }])
        (some [{ Name := "lo", BytesSent := 500, BytesRecv := 500 },
          { Name := "eth0", BytesSent := 7, BytesRecv := 1048676 },
          { Name := "wlan0", BytesSent := 9, BytesRecv := 9 }]) 1 =
        { RX := "1.0 MB/s", TX := "0.0 KB/s" } := by
  refine ⟨by norm_num, ?_⟩
  have h := (getNetworkSpeed_rates
    [{ Name := "eth0", BytesSent := 7, BytesRecv := 100 },
      { Name := "lo", BytesSent := 5, BytesRecv := 5 }]
    [{ Name := "lo", BytesSent := 500, BytesRecv := 500 },
      { Name := "eth0", BytesSent := 7, BytesRecv := 1048676 },
      { Name := "wlan0", BytesSent := 9, BytesRecv := 9 }] 1 (by norm_num)).2.2.1
  rw [h]
  decide!

/-- C3 fails as stated when a counter decreases: with "eth0" at 100 received bytes
in the first snapshot and 50 in the second, over one second, the code computes the
rate `(2 ^ 64 - 50) / 1024` KB/s, whereas the sum of the differences divided by the
time and by 1024 is `-50 / 1024`. -/
theorem getNetworkSpeed_rates_counterexample :
    (speeds [{ Name := "eth0", BytesSent := 0, BytesRecv := 100 }]
        [{ Name := "eth0", BytesSent := 0, BytesRecv := 50 }] 1).1 =
        (2 ^ 64 - 50) / 1024 ∧
      claimedTotalRX [{ Name := "eth0", BytesSent := 0, BytesRecv := 100 }]
        [{ Name := "eth0", BytesSent := 0, BytesRecv := 50 }] / 1 / 1024 = -50 / 1024 ∧
      (speeds [{ Name := "eth0", BytesSent := 0, BytesRecv := 100 }]
        [{ Name := "eth0", BytesSent := 0, BytesRecv := 50 }] 1).1 ≠
        claimedTotalRX [{ Name := "eth0", BytesSent := 0, BytesRecv := 100 }]
          [{ Name := "eth0", BytesSent := 0, BytesRecv := 50 }] / 1 / 1024 := by
  refine ⟨by decide!, by decide!, by decide!⟩

/-! ## Loopback and new interfaces: C4 and C5 -/

theorem accumulate_congr (m m' : String → Option IOCountersStat) (fin : List IOCountersStat)
    (acc : ℚ × ℚ) (h : ∀ c ∈ fin, c.Name ≠ "lo" → m c.Name = m' c.Name) :
    accumulate m fin acc = accumulate m' fin acc := by
  induction fin generalizing acc with
  | nil => rfl
  | cons c rest ih =>
    have hr : ∀ x ∈ rest, x.Name ≠ "lo" → m x.Name = m' x.Name :=
      fun x hx => h x (by simp [hx])
    simp only [accumulate]
    by_cases hlo : c.Name = "lo"
    · simp only [hlo, if_true]
      exact ih _ hr
    · simp only [hlo, if_false, ← h c (by simp) hlo]
      cases m c.Name with
      | none => exact ih _ hr
      | some ic => exact ih _ hr

theorem accumulate_withoutLoopback (m : String → Option IOCountersStat)
    (fin : List IOCountersStat) (acc : ℚ × ℚ) :
    accumulate m (withoutLoopback fin) acc = accumulate m fin acc := by
  induction fin generalizing acc with
  | nil => rfl
  | cons c rest ih =>
    simp only [withoutLoopback, List.filter_cons] at ih ⊢
    by_cases hlo : c.Name = "lo"
    · simp only [hlo, bne_self_eq_false, Bool.false_eq_true, if_false, accumulate, if_true]
      exact ih acc
    · have hb : (c.Name != "lo") = true := by simpa using hlo
      simp only [hb, if_true, accumulate, hlo, if_false]
      cases m c.Name with
      | none => exact ih acc
      | some ic => exact ih _

theorem initialMap_withoutLoopback (init : List IOCountersStat) (name : String)
    (hn : name ≠ "lo") : initialMap (withoutLoopback init) name = initialMap init name := by
  induction init with
  | nil => rfl
  | cons c rest ih =>
    simp only [withoutLoopback, List.filter_cons] at ih ⊢
    by_cases hlo : c.Name = "lo"
    · have hne : ¬ c.Name = name := by
        rw [hlo]
        exact fun h => hn h.symm
      simp only [hlo, bne_self_eq_false, Bool.false_eq_true, if_false, initialMap, ih]
      rw [← hlo]
      simp only [hne, if_false]
      cases initialMap rest name <;> rfl
    · have hb : (c.Name != "lo") = true := by simpa using hlo
      simp only [hb, if_true, initialMap, ih]

theorem totals_withoutLoopback (init fin : List IOCountersStat) :
    totals init fin = totals (withoutLoopback init) (withoutLoopback fin) := by
  simp only [totals]
  rw [accumulate_withoutLoopback]
  exact accumulate_congr _ _ _ _
    (fun c _ hlo => (initialMap_withoutLoopback init c.Name hlo).symm)

/-- C4: the totals of `getNetworkSpeed`, and so both reported strings, depend on the
two snapshots only through their entries other than the loopback interface "lo":
two pairs of snapshots that differ only in loopback entries (other byte counts, or
no such entry) give the same totals and the same strings. -/
theorem getNetworkSpeed_ignores_loopback (init init' fin fin' : List IOCountersStat)
    (t : ℚ) (hinit : withoutLoopback init = withoutLoopback init')
    (hfin : withoutLoopback fin = withoutLoopback fin') :
    totals init fin = totals init' fin' ∧
      getNetworkSpeed (some init) (some fin) t = getNetworkSpeed (some init') (some fin') t := by
  have h : totals init fin = totals init' fin' := by
    rw [totals_withoutLoopback init fin, totals_withoutLoopback init' fin', hinit, hfin]
  refine ⟨h, ?_⟩
  simp only [getNetworkSpeed, speeds, h]

/-- C4 at a concrete pair: the loopback counters are changed in the first snapshot
and the loopback entry is removed from the second. -/
theorem getNetworkSpeed_ignores_loopback_witness :
    totals
        [{ Name := "lo", BytesSent := 5, BytesRecv := 5 },
          { Name := "eth0", BytesSent := 10, BytesRecv := 100 }]
        [{ Name := "lo", BytesSent := 900000, BytesRecv := 900000 },
          { Name := "eth0", BytesSent := 30, BytesRecv := 400 }] =
      totals
        [{ Name := "lo", BytesSent := 77, BytesRecv := 0 },
          { Name := "eth0", BytesSent := 10, BytesRecv := 100 }]
        [{ Name := "eth0", BytesSent := 30, BytesRecv := 400 }] :=
  (getNetworkSpeed_ignores_loopback
    [{ Name := "lo", BytesSent := 5, BytesRecv := 5 },
      { Name := "eth0", BytesSent := 10, BytesRecv := 100 }]
    [{ Name := "lo", BytesSent := 77, BytesRecv := 0 },
      { Name := "eth0", BytesSent := 10, BytesRecv := 100 }]
    [{ Name := "lo", BytesSent := 900000, BytesRecv := 900000 },
      { Name := "eth0", BytesSent := 30, BytesRecv := 400 }]
    [{ Name := "eth0", BytesSent := 30, BytesRecv := 400 }] 1 (by decide) (by decide)).1

theorem initialMap_absent (init : List IOCountersStat) (name : String)
    (h : ∀ ic ∈ init, ic.Name ≠ name) : initialMap init name = none := by
  induction init with
  | nil => rfl
  | cons c rest ih =>
    simp only [initialMap, ih (fun ic hic => h ic (by simp [hic])), h c (by simp), if_false]

theorem accumulate_withoutInterface (m : String → Option IOCountersStat) (name : String)
    (hm : m name = none) (fin : List IOCountersStat) (acc : ℚ × ℚ) :
    accumulate m (withoutInterface name fin) acc = accumulate m fin acc := by
  induction fin generalizing acc with
  | nil => rfl
  | cons c rest ih =>
    simp only [withoutInterface, List.filter_cons] at ih ⊢
    by_cases hn : c.Name = name
    · simp only [hn, bne_self_eq_false, Bool.false_eq_true, if_false, accumulate, hm]
      split
      · exact ih acc
      · exact ih acc
    · have hb : (c.Name != name) = true := by simpa using hn
      simp only [hb, if_true, accumulate]
      split
      · exact ih acc
      · cases m c.Name with
        | none => exact ih acc
        | some ic => exact ih _

/-- C5: an interface that is in the second snapshot but not in the first adds
nothing to the running totals at its turn in the loop, whatever its counters are,
and the totals and reported strings are those obtained with the entries of that
interface removed from the second snapshot. -/
theorem getNetworkSpeed_skips_new_interface (init fin : List IOCountersStat)
    (name : String) (t : ℚ) (habsent : ∀ ic ∈ init, ic.Name ≠ name) :
    (∀ (c : IOCountersStat) (rest : List IOCountersStat) (acc : ℚ × ℚ), c.Name = name →
      accumulate (initialMap init) (c :: rest) acc = accumulate (initialMap init) rest acc) ∧
    totals init fin = totals init (withoutInterface name fin) ∧
    getNetworkSpeed (some init) (some fin) t =
      getNetworkSpeed (some init) (some (withoutInterface name fin)) t := by
  have hm := initialMap_absent init name habsent
  have h : totals init fin = totals init (withoutInterface name fin) := by
    simp only [totals]
    exact (accumulate_withoutInterface _ name hm fin _).symm
  refine ⟨?_, h, ?_⟩
  · intro c rest acc hc
    simp only [accumulate, hc, hm]
    split <;> rfl
  · simp only [getNetworkSpeed, speeds, h]

/-- C5 at a concrete pair: "wlan0" appears only in the second snapshot, with large
counters, and the totals are those of "eth0" alone. -/
theorem getNetworkSpeed_skips_new_interface_witness :
    totals [{ Name := "eth0", BytesSent := 10, BytesRecv := 100 }]
        [{ Name := "wlan0", BytesSent := 123456789, BytesRecv := 987654321 },
          { Name := "eth0", BytesSent := 30, BytesRecv := 400 }] =
      totals [{ Name := "eth0", BytesSent := 10, BytesRecv := 100 }]
        (withoutInterface "wlan0"
          [{ Name := "wlan0", BytesSent := 123456789, BytesRecv := 987654321 },
            { Name := "eth0", BytesSent := 30, BytesRecv := 400 }]) :=
  (getNetworkSpeed_skips_new_interface
    [{ Name := "eth0", BytesSent := 10, BytesRecv := 100 }]
    [{ Name := "wlan0", BytesSent := 123456789, BytesRecv := 987654321 },
      { Name := "eth0", BytesSent := 30, BytesRecv := 400 }] "wlan0" 1 (by decide)).2.1

/-! ## Failure results of the network probe: C8 -/

/-- C8: `getNetworkSpeed` reports "N/A" for RX and TX when the first or the second
counter query fails, and "0 KB/s" for both when both queries succeed and the
measured elapsed time is not positive, whatever the snapshots contain. -/
theorem getNetworkSpeed_failures (first second : Option (List IOCountersStat)) (t : ℚ) :
    (first = none ∨ second = none →
      getNetworkSpeed first second t = { RX := "N/A", TX := "N/A" }) ∧
    (∀ init fin, first = some init → second = some fin → t ≤ 0 →
      getNetworkSpeed first second t = { RX := "0 KB/s", TX := "0 KB/s" }) := by
  constructor
  · intro h
    cases first with
    | none => rfl
    | some init =>
      cases second with
      | none => rfl
      | some fin => simp at h
  · intro init fin h1 h2 ht
    subst h1 h2
    simp only [getNetworkSpeed, ht, if_true]

/-! ## Wrap-around of the counters: C10 -/

theorem sum_map_natCast_nonneg (l : List IOCountersStat) (f : IOCountersStat → Nat) :
    (0 : ℚ) ≤ (l.map (fun c => ((f c : Nat) : ℚ))).sum := by
  induction l with
  | nil => simp
  | cons c rest ih =>
    simp only [List.map_cons, List.sum_cons]
    have : (0 : ℚ) ≤ (f c : ℚ) := Nat.cast_nonneg _
    linarith

/-- C10: the byte delta of a qualifying interface is computed in unsigned 64-bit
arithmetic: it is `(final - initial) mod 2 ^ 64`; when the final counter is smaller
than the initial one it is `2 ^ 64 + final - initial`, at least `2 ^ 64 - initial`;
an entry that is neither the loopback nor new adds these deltas to the running
totals; both totals and, for a positive elapsed time, both rates are
non-negative. -/
theorem getNetworkSpeed_wraps (init fin : List IOCountersStat) (t : ℚ) :
    (∀ f i : Nat, f < 2 ^ 64 → i < 2 ^ 64 →
      ((sub64 f i : Nat) : Int) = ((f : Int) - (i : Int)) % 2 ^ 64 ∧
      (f < i → sub64 f i = 2 ^ 64 + f - i ∧ 2 ^ 64 - i ≤ sub64 f i)) ∧
    (∀ (c ic : IOCountersStat) (rest : List IOCountersStat) (acc : ℚ × ℚ),
      c.Name ≠ "lo" → initialMap init c.Name = some ic →
      accumulate (initialMap init) (c :: rest) acc =
        accumulate (initialMap init) rest
          (acc.1 + ((sub64 c.BytesRecv ic.BytesRecv : Nat) : ℚ),
            acc.2 + ((sub64 c.BytesSent ic.BytesSent : Nat) : ℚ))) ∧
    0 ≤ (totals init fin).1 ∧ 0 ≤ (totals init fin).2 ∧
    (0 < t → 0 ≤ (speeds init fin t).1 ∧ 0 ≤ (speeds init fin t).2) := by
  have h1 : 0 ≤ (totals init fin).1 := by
    rw [totals_eq_sum]
    exact sum_map_natCast_nonneg _ _
  have h2 : 0 ≤ (totals init fin).2 := by
    rw [totals_eq_sum]
    exact sum_map_natCast_nonneg _ _
  refine ⟨?_, ?_, h1, h2, ?_⟩
  · intro f i hf hi
    constructor
    · by_cases hfi : i ≤ f
      · rw [sub64_of_le f i hf hfi]
        have e : ((f : Int) - i) % 2 ^ 64 = (f : Int) - i := by
          apply Int.emod_eq_of_lt <;> omega
        rw [e]
        omega
      · have hlt : f < i := not_le.1 hfi
        rw [sub64_of_lt f i hi hlt]
        have e : ((f : Int) - i) % 2 ^ 64 = (f : Int) - i + 2 ^ 64 := by
          rw [← Int.add_emod_self]
          apply Int.emod_eq_of_lt <;> omega
        rw [e]
        omega
    · intro hlt
      rw [sub64_of_lt f i hi hlt]
      constructor
      · rfl
      · omega
  · intro c ic rest acc hlo hm
    simp only [accumulate, hlo, if_false, hm]
  · intro ht
    simp only [speeds]
    constructor
    · exact div_nonneg (div_nonneg h1 (le_of_lt ht)) (by norm_num)
    · exact div_nonneg (div_nonneg h2 (le_of_lt ht)) (by norm_num)

/-! ## Formatting of a rate: C7 -/

theorem roundHalfEven_near (y : ℚ) (hy : 0 ≤ y) : |y - (roundHalfEven y : ℚ)| ≤ 1 / 2 := by
  have hfl : (0 : Int) ≤ ⌊y⌋ := Int.floor_nonneg.2 hy
  have hcast : ((⌊y⌋.toNat : Nat) : ℚ) = (⌊y⌋ : ℚ) := by
    have h : ((⌊y⌋.toNat : Nat) : Int) = ⌊y⌋ := Int.toNat_of_nonneg hfl
    exact_mod_cast congrArg (fun z : Int => (z : ℚ)) h
  have h1 : (⌊y⌋ : ℚ) ≤ y := Int.floor_le y
  have h2 : y < (⌊y⌋ : ℚ) + 1 := Int.lt_floor_add_one y
  unfold roundHalfEven
  simp only []
  rw [abs_le]
  split
  · rename_i h
    rw [hcast] at h ⊢
    constructor <;> linarith
  · rename_i h
    split
    · rename_i h'
      rw [hcast] at h'
      push_cast
      rw [hcast]
      constructor <;> linarith
    · rename_i h'
      rw [hcast] at h h'
      split
      · rw [hcast]
        constructor <;> linarith
      · push_cast
        rw [hcast]
        constructor <;> linarith

theorem decimal_digit_length (d : Nat) (h : d < 10) : (decimal d).length = 1 := by
  interval_cases d <;> rfl

/-- C7: `formatSpeed r` is `r` rendered with one decimal place followed by " KB/s"
when `r < 1024`, and `r / 1024` rendered with one decimal place followed by " MB/s"
when `1024 ≤ r`, so that `formatSpeed 1024 = "1.0 MB/s"`; the rendering of `x`
consists of a minus sign when `x < 0`, the decimal digits of `m / 10`, a point and
the single digit `m % 10`, where `m` is a natural number with
`| |x| * 10 - m | ≤ 1/2`. -/
theorem formatSpeed_spec (r : ℚ) :
    (r < 1024 → formatSpeed r = sprintf1 r ++ " KB/s") ∧
    (1024 ≤ r → formatSpeed r = sprintf1 (r / 1024) ++ " MB/s") ∧
    formatSpeed 1024 = "1.0 MB/s" ∧
    (∀ x : ℚ, ∃ m : Nat, |(|x| * 10) - (m : ℚ)| ≤ 1 / 2 ∧
      (decimal (m % 10)).length = 1 ∧
      sprintf1 x = (if x < 0 then "-" else "") ++ String.mk (decimal (m / 10)) ++ "." ++
        String.mk (decimal (m % 10))) := by
  refine ⟨?_, ?_, formatSpeed_1024, ?_⟩
  · intro h
    simp only [formatSpeed, h, if_true]
  · intro h
    simp only [formatSpeed, not_lt.2 h, if_false]
  · intro x
    refine ⟨roundHalfEven (|x| * 10), ?_, ?_, rfl⟩
    · exact roundHalfEven_near _ (mul_nonneg (abs_nonneg x) (by norm_num))
    · exact decimal_digit_length _ (Nat.mod_lt _ (by norm_num))

/-- C7 at concrete rates, on both sides of the boundary. -/
theorem formatSpeed_spec_witness :
    formatSpeed (51234 / 100) = "512.3 KB/s" ∧ formatSpeed (3 / 4) = "0.8 KB/s" ∧
      formatSpeed (1 / 4) = "0.2 KB/s" ∧ formatSpeed 1536 = "1.5 MB/s" ∧
      formatSpeed 1024 = "1.0 MB/s" :=
  ⟨by
    rw [(formatSpeed_spec (51234 / 100)).1 (by norm_num)]
    decide!, by decide!, by decide!, by
    rw [(formatSpeed_spec 1536).2.1 (by norm_num)]
    decide!, (formatSpeed_spec 0).2.2.1⟩

/-- C8 at concrete outcomes: a failed second query, and a zero elapsed time. -/
theorem getNetworkSpeed_failures_witness :
    getNetworkSpeed (some [{ Name := "eth0", BytesSent := 1, BytesRecv := 2 }]) none 1 =
        { RX := "N/A", TX := "N/A" } ∧
      getNetworkSpeed (some [{ Name := "eth0", BytesSent := 1, BytesRecv := 2 }])
        (some [{ Name := "eth0", BytesSent := 5, BytesRecv := 9 }]) 0 =
        { RX := "0 KB/s", TX := "0 KB/s" } :=
  ⟨(getNetworkSpeed_failures _ none 1).1 (Or.inr rfl),
    (getNetworkSpeed_failures _ _ 0).2 _ _ rfl rfl (le_refl 0)⟩

/-- C10 at a counter reset: "eth0" falls from 100 to 50 received bytes and the
total is `2 ^ 64 - 50`. -/
theorem getNetworkSpeed_wraps_witness :
    sub64 50 100 = 2 ^ 64 + 50 - 100 ∧ 2 ^ 64 - 100 ≤ sub64 50 100 ∧
      totals [{ Name := "eth0", BytesSent := 0, BytesRecv := 100 }]
        [{ Name := "eth0", BytesSent := 0, BytesRecv := 50 }] = (2 ^ 64 - 50, 0) := by
  have h := ((getNetworkSpeed_wraps [] [] 1).1 50 100 (by norm_num) (by norm_num)).2
    (by norm_num)
  exact ⟨h.1, h.2, by decide!⟩


end HoiOla
